import Mathlib

/-!
Verification development for the MarketHawk job/workflow execution core.

The definitions below are a shallow embedding of the Python modules
`lens/workflow.py`, `lens/job.py`, `lens/batch_processor.py` and
`lens/refine_timestamps.py`.  Python dicts become association lists with
in-place-update semantics (updating an existing key keeps its position,
a new key is appended), machine floats used as timestamps/scores become
exact rationals, fallible code returns `Except String`, and external
collaborators (step handlers, the `eval`-based skip-condition evaluator,
the wall clock) are parameters of the embedding.
-/

namespace MarketHawk

/-- YAML-ish scalar values stored in job records and handler results. -/
inductive Val where
  | vStr : String → Val
  | vInt : Int → Val
deriving DecidableEq, Repr

/-- A Python dict with string keys, as an association list. -/
abbrev Dict := List (String × Val)

/-- Dict lookup (`d.get(k)` / `d[k]`). -/
def alookup {β : Type} : List (String × β) → String → Option β
  | [], _ => none
  | (k2, v) :: rest, k => if k2 = k then some v else alookup rest k

/-- Dict assignment `d[k] = v`: an existing key keeps its position, a new
key is appended, as in CPython dicts. -/
def aset {β : Type} : List (String × β) → String → β → List (String × β)
  | [], k, v => [(k, v)]
  | (k2, v2) :: rest, k, v =>
    if k2 = k then (k2, v) :: rest else (k2, v2) :: aset rest k v

/-- The keys of a dict, in order (`list(d.keys())`). -/
def akeys {β : Type} (d : List (String × β)) : List String := d.map (·.1)

/-- Python `str.lower()` (ASCII), written over the character list so the
kernel can evaluate it. -/
def pyLower (s : String) : String := String.mk (s.toList.map Char.toLower)

/-- Python `str.strip()`: drop leading and trailing whitespace. -/
def pyStrip (s : String) : String :=
  String.mk (((s.toList.dropWhile Char.isWhitespace).reverse.dropWhile
    Char.isWhitespace).reverse)

/-- Substring test (Python `needle in hay` on strings), over character
lists: the needle is a prefix of some suffix of the hay. -/
def listInfixOf : List Char → List Char → Bool
  | needle, [] => needle.isEmpty
  | needle, c :: t => needle.isPrefixOf (c :: t) || listInfixOf needle t

/-- The single-quote character, used to build Python-style error messages. -/
def sq : String := String.mk [Char.ofNat 39]

/-- A string in Python single quotes, as produced by f-string interpolation
of a quoted value. -/
def pyQuote (s : String) : String := sq ++ s ++ sq

/-- Python `repr` of a list of strings, e.g. a bracketed comma-separated sequence of quoted names, as produced by
interpolating `list(d.keys())` into an f-string. -/
def pyStrList (l : List String) : String :=
  "[" ++ String.intercalate ", " (l.map pyQuote) ++ "]"

/-! ## Job records (`lens/job.py`, class `JobManager`)

A job record is the parsed `job.yaml`: an overall `status`, the `input`
section, the `processing` map from step name to step record, and the
remaining top-level fields (company, outputs, ...), which the orchestrator
never mutates and which are kept in `fields`.  `JobManager` saves the record
on every mutation, so the in-memory record below is also the persisted one;
the (non-)atomicity of the save itself is modelled separately. -/

structure JobRec where
  status : String
  input : Dict
  fields : Dict
  processing : List (String × Dict)
deriving DecidableEq, Repr

/-- `JobManager.update_step(step, status, **data)`: create the step
record if absent, set its `status` key, merge `data` in order, save. -/
def updateStep (j : JobRec) (step : String) (status : String) (data : Dict) : JobRec :=
  let rec0 := (alookup j.processing step).getD []
  let rec1 := aset rec0 "status" (Val.vStr status)
  let rec2 := data.foldl (fun r kv => aset r kv.1 kv.2) rec1
  { j with processing := aset j.processing step rec2 }

/-- `JobManager.set_status(status)`: set the overall job status and save. -/
def setStatus (j : JobRec) (status : String) : JobRec :=
  { j with status := status }

/-- The persisted status of one step: the `status` key of the step record under `processing`. -/
def stepStatus (j : JobRec) (name : String) : Option Val :=
  (alookup j.processing name).bind (fun r => alookup r "status")

/-- The persisted error of one step: the `error` key of the step record under `processing`. -/
def stepError (j : JobRec) (name : String) : Option Val :=
  (alookup j.processing name).bind (fun r => alookup r "error")

/-! ## Step context and variable resolution (`lens/workflow.py`, `StepContext`) -/

/-- Runtime context tracking outputs of executed steps. -/
structure StepContext where
  outputs : List (String × Dict)
deriving DecidableEq, Repr

/-- Error message of `StepContext.get_output` when the step has no
registered outputs.  Note: it does not enumerate the available step ids. -/
def msgNoStep (stepId : String) : String :=
  "Step " ++ pyQuote stepId ++ " has not been executed or has no outputs"

/-- Error message of `StepContext.get_output` when the step exists but the
requested key does not; it lists the step's available output keys. -/
def msgNoKey (stepId key : String) (avail : List String) : String :=
  "Step " ++ pyQuote stepId ++ " has no output " ++ pyQuote key ++
    ". Available: " ++ pyStrList avail

/-- `StepContext.get_output(step_id, key)`; raising `KeyError` becomes
`Except.error` carrying the message. -/
def getOutput (ctx : StepContext) (stepId key : String) : Except String Val :=
  match alookup ctx.outputs stepId with
  | none => .error (msgNoStep stepId)
  | some outs =>
    match alookup outs key with
    | none => .error (msgNoKey stepId key (akeys outs))
    | some v => .ok v

/-- Error message for a missing field of the `input` source. -/
def msgNoInputField (field : String) (avail : List String) : String :=
  "Job input has no field " ++ pyQuote field ++ ". Available: " ++ pyStrList avail

/-- Error message for a missing top-level `job` field (no listing). -/
def msgNoJobField (field : String) : String :=
  "Job has no field " ++ pyQuote field

/-- Error message for a malformed variable expression. -/
def msgBadExpr (expr : String) : String :=
  "Invalid variable expression " ++ pyQuote expr ++
    ". Expected format: $\x7bsource.field\x7d"

/-- `StepContext.resolve_variable(expression)`.  A string that does not
start with a dollar-brace and end with a brace is a literal returned
as-is; otherwise the inner path is split on the first dot (Python split on a dot with maxsplit 1) into `source.field` — no dot is a `ValueError` — and
resolved against the job input section, the job top-level fields, or a
step's registered outputs. -/
def resolveVariable (ctx : StepContext) (job : JobRec) (expr : String) : Except String Val :=
  let cs := expr.toList
  if ¬ ([Char.ofNat 36, Char.ofNat 123].isPrefixOf cs ∧
        cs.getLast? = some (Char.ofNat 125)) then
    .ok (Val.vStr expr)
  else
    let varPath := (cs.drop 2).dropLast
    let source := String.mk (varPath.takeWhile (fun c => c ≠ Char.ofNat 46))
    match varPath.dropWhile (fun c => c ≠ Char.ofNat 46) with
    | [] => .error (msgBadExpr expr)
    | _ :: fieldCs =>
      let field := String.mk fieldCs
      if source = "input" then
        match alookup job.input field with
        | none => .error (msgNoInputField field (akeys job.input))
        | some v => .ok v
      else if source = "job" then
        match alookup job.fields field with
        | none => .error (msgNoJobField field)
        | some v => .ok v
      else
        getOutput ctx source field

/-! ## Workflow orchestrator (`lens/workflow.py`, `WorkflowOrchestrator`)

A step descriptor from the workflow YAML.  `required` defaults to `True`
in the source (`required` defaulting to true when absent); here the loaded value is
stored explicitly. -/

structure StepDef where
  name : String
  handler : String
  required : Bool
  skipIf : Option String
  inputs : List (String × String)
  outputs : List (String × String)
  id : Option String
deriving DecidableEq, Repr

/-- A step handler: handlers receive the job data (with resolved inputs)
and return a result dict, or raise.  The job directory argument is an
external path and is dropped from the model. -/
abbrev Handler := JobRec → Dict → Except String Dict

/-- External collaborators of the orchestrator: the `--force` flag, the
handler registry (`step_registry.STEP_HANDLERS`; a missing name makes
`get_handler` raise), the registered handler names (used only in that
error message), the semantics of `eval` on skip-condition expressions
against the job-derived namespace, and the wall-clock reading used for
`started_at`/`completed_at`/`failed_at` values. -/
structure Config where
  force : Bool
  handlers : String → Option Handler
  registeredNames : List String
  evalCond : String → JobRec → Except String Bool
  now : String

/-- `get_handler` error message (`lens/step_registry.py`). -/
def msgUnknownHandler (cfg : Config) (name : String) : String :=
  "Unknown step handler: " ++ name ++ "\nAvailable handlers: " ++
    String.intercalate ", " cfg.registeredNames

/-- Orchestrator state: the job record (persisted on every mutation), the
step context, and an instrumentation counter of handler invocations. -/
structure OrchState where
  job : JobRec
  ctx : StepContext
  calls : Nat
deriving Repr

/-- `WorkflowOrchestrator._evaluate_condition`: evaluate the skip
condition; any evaluation exception yields `False` (do not skip). -/
def evaluateCondition (cfg : Config) (j : JobRec) (cond : String) : Bool :=
  match cfg.evalCond cond j with
  | .ok b => b
  | .error _ => false

/-- The already-completed test of `_should_skip_step`: the step is in the
`processing` map with persisted status `completed` and `--force` is off. -/
def completedHit (cfg : Config) (j : JobRec) (stepName : String) : Bool :=
  !cfg.force &&
    (match alookup j.processing stepName with
     | some r => alookup r "status" == some (Val.vStr "completed")
     | none => false)

/-- `WorkflowOrchestrator._should_skip_step`: skip when already completed
(without `--force`), else when the `skip_if` condition evaluates true. -/
def shouldSkipStep (cfg : Config) (j : JobRec) (step : StepDef) : Bool × Option String :=
  if completedHit cfg j step.name then (true, some "already completed")
  else
    match step.skipIf with
    | some cond =>
      if evaluateCondition cfg j cond then (true, some ("condition met: " ++ cond))
      else (false, none)
    | none => (false, none)

/-- `WorkflowOrchestrator._resolve_inputs`: resolve each declared input in
order; the first resolution error is re-raised. -/
def resolveInputs (ctx : StepContext) (j : JobRec) (step : StepDef) : Except String Dict :=
  step.inputs.foldlM
    (fun acc nv => (resolveVariable ctx j nv.2).map (fun v => acc ++ [(nv.1, v)])) []

/-- `WorkflowOrchestrator._register_outputs`: with no `outputs` mapping the
whole handler result is registered; otherwise the declared subset is
registered under the mapped names, silently skipping missing result keys
(a warning is printed in the source). -/
def registerOutputs (ctx : StepContext) (step : StepDef) (result : Dict) : StepContext :=
  let stepId := step.id.getD step.name
  if step.outputs = [] then { outputs := aset ctx.outputs stepId result }
  else
    let mapped := step.outputs.foldl
      (fun acc om =>
        match alookup result om.2 with
        | some v => acc ++ [(om.1, v)]
        | none => acc) []
    { outputs := aset ctx.outputs stepId mapped }

/-- The `except` branch of `_execute_step`: mark the step `failed` with the
error message, then re-raise for a required step (`Except.error`) or swallow
and return `False` for an optional one. -/
def failStep (cfg : Config) (st : OrchState) (step : StepDef) (e : String) :
    OrchState × Except String Bool :=
  let job2 := updateStep st.job step.name "failed"
    [("error", Val.vStr ("Failed: " ++ e)), ("failed_at", Val.vStr cfg.now)]
  let st2 := { st with job := job2 }
  if step.required then (st2, .error e) else (st2, .ok false)

/-- `WorkflowOrchestrator._execute_step`.  The returned `Except` is the
Python control flow: `.ok b` is a normal return of `b`, `.error e` is the
re-raised handler exception of a required step. -/
def executeStep (cfg : Config) (st : OrchState) (step : StepDef) :
    OrchState × Except String Bool :=
  if (shouldSkipStep cfg st.job step).1 then (st, .ok true)
  else
    let st1 := { st with
      job := updateStep st.job step.name "in_progress" [("started_at", Val.vStr cfg.now)] }
    match resolveInputs st1.ctx st1.job step with
    | .error e => failStep cfg st1 step e
    | .ok resolved =>
      match cfg.handlers step.handler with
      | none => failStep cfg st1 step (msgUnknownHandler cfg step.handler)
      | some h =>
        let st2 := { st1 with calls := st1.calls + 1 }
        match h st1.job resolved with
        | .error e => failStep cfg st2 step e
        | .ok result =>
          let ctx2 := registerOutputs st2.ctx step result
          let job2 := updateStep st2.job step.name "completed"
            ([("completed_at", Val.vStr cfg.now)] ++ result)
          ({ job := job2, ctx := ctx2, calls := st2.calls }, .ok true)

/-- The step loop of `run_all`: execute steps in order, recording each
outcome; a raised exception (required-step failure) stops the loop. -/
def runSteps (cfg : Config) : List StepDef → OrchState → OrchState × List (Except String Bool)
  | [], st => (st, [])
  | step :: rest, st =>
    match executeStep cfg st step with
    | (st1, .error e) => (st1, [.error e])
    | (st1, .ok b) =>
      let (st2, rs) := runSteps cfg rest st1
      (st2, .ok b :: rs)

/-- Did a step outcome count as failed in `run_all`?  Both a normal
`False` return (optional-step failure) and a raised exception do. -/
def outcomeFailed : Except String Bool → Bool
  | .ok true => false
  | .ok false => true
  | .error _ => true

/-- Was a step outcome a raised (required-step) exception? -/
def outcomeRaised : Except String Bool → Bool
  | .error _ => true
  | .ok _ => false

/-- `WorkflowOrchestrator.run_all`: set the job status to `processing`,
run all steps, then persist `completed` when no step failed, else
`failed`. -/
def runAll (cfg : Config) (steps : List StepDef) (st : OrchState) : OrchState :=
  let p := runSteps cfg steps { st with job := setStatus st.job "processing" }
  if p.2.countP (fun r => outcomeFailed r) = 0 then
    { p.1 with job := setStatus p.1.job "completed" }
  else { p.1 with job := setStatus p.1.job "failed" }

/-- The outcome list `run_all` observes, for stating properties. -/
def runAllOutcomes (cfg : Config) (steps : List StepDef) (st : OrchState) :
    List (Except String Bool) :=
  (runSteps cfg steps { st with job := setStatus st.job "processing" }).2

/-! ## Persistence of the job record (`lens/job.py`, `JobManager._save`)

`_save` creates the parent directory and then opens the job file in
write mode and dumps the whole record into it.  The file-system effects
are modelled as a trace of primitive operations, with crash semantics:
a crash can happen between operations, or in the middle of a write, in
which case the target file holds the truncated prefix written so far
(`open(path, 'w')` truncates before writing). -/

inductive FsOp where
  | mkdirParents (dir : String)
  | writeFile (path : String) (content : String)
  | rename (src dst : String)
deriving DecidableEq, Repr

/-- The operation trace of `JobManager._save`: `mkdir(parents=True)` on the
job file's directory, then a direct truncating write of the serialized
record to the job file.  There is no temporary file and no rename. -/
def saveOps (jobDir jobFile : String) (serialized : String) : List FsOp :=
  [FsOp.mkdirParents jobDir, FsOp.writeFile jobFile serialized]

/-- A flat file system: path to content.  Directories are not tracked. -/
abbrev Fs := List (String × String)

/-- Apply one completed file-system operation. -/
def applyOp (fs : Fs) : FsOp → Fs
  | FsOp.mkdirParents _ => fs
  | FsOp.writeFile p c => aset fs p c
  | FsOp.rename src dst =>
    match alookup fs src with
    | some c => aset ((fs.filter (fun kv => kv.1 ≠ src))) dst c
    | none => fs

/-- Run a trace of operations to completion. -/
def runOps (fs : Fs) (ops : List FsOp) : Fs := ops.foldl applyOp fs

/-- All prefixes of a string, shortest first. -/
def strPrefixes (s : String) : List String :=
  (List.range (s.length + 1)).map (fun n => String.mk (s.toList.take n))

/-- The file-system states observable if the process crashes in the middle
of one operation.  A truncating write can be interrupted after writing any
prefix of the content; `rename` is atomic. -/
def midStates (fs : Fs) : FsOp → List Fs
  | FsOp.mkdirParents _ => []
  | FsOp.writeFile p c => (strPrefixes c).map (fun pre => aset fs p pre)
  | FsOp.rename _ _ => []

/-- All file-system states reachable by crashing at any point while a
trace executes (including before the first and after the last op). -/
def crashStates : Fs → List FsOp → List Fs
  | fs, [] => [fs]
  | fs, op :: rest => fs :: (midStates fs op ++ crashStates (applyOp fs op) rest)

/-- Does the trace rename anything onto the given path?  A
write-temp-then-rename save would end with such an operation. -/
def isRenameTo (path : String) : FsOp → Bool
  | FsOp.rename _ dst => dst == path
  | _ => false

/-! ## Batch orchestrator (`lens/batch_processor.py`, `BatchProcessor`) -/

/-- One lightweight job reference inside `batch.yaml`: its id, its status
(`None` when the key is absent; the stats default a missing status
to pending), and its remaining payload, which `process_batch`
itself never touches. -/
structure BatchJob where
  jobId : String
  status : Option String
  payload : Dict
deriving DecidableEq, Repr

/-- Aggregate counts computed by `update_batch_stats`. -/
structure BatchStats where
  total : Nat
  pending : Nat
  processing : Nat
  completed : Nat
  failed : Nat
  skipped : Nat
deriving DecidableEq, Repr

/-- The batch record (`batch.yaml`): overall status, the job list, and the
last computed stats (absent before the first computation). -/
structure BatchConfig where
  status : String
  jobs : List BatchJob
  stats : Option BatchStats
deriving DecidableEq, Repr

/-- Batch processor state: the in-memory config plus the trace of
snapshots persisted by `save_batch_config`, oldest first. -/
structure BatchSt where
  cfg : BatchConfig
  trace : List BatchConfig
deriving DecidableEq, Repr

/-- `save_batch_config`: persist the current config (modelled by
appending a snapshot to the persisted trace). -/
def saveCfg (st : BatchSt) : BatchSt := { st with trace := st.trace ++ [st.cfg] }

/-- `update_batch_stats`: recount job statuses (defaulting a missing
status to `pending`; a status outside the five buckets is not counted)
and persist. -/
def computeStats (jobs : List BatchJob) : BatchStats :=
  { total := jobs.length
    pending := jobs.countP (fun j => j.status.getD "pending" = "pending")
    processing := jobs.countP (fun j => j.status.getD "pending" = "processing")
    completed := jobs.countP (fun j => j.status.getD "pending" = "completed")
    failed := jobs.countP (fun j => j.status.getD "pending" = "failed")
    skipped := jobs.countP (fun j => j.status.getD "pending" = "skipped") }

/-- Recompute the stats into the config and persist. -/
def updateBatchStats (st : BatchSt) : BatchSt :=
  saveCfg { st with cfg := { st.cfg with stats := some (computeStats st.cfg.jobs) } }

/-- Is a job skipped by the batch loop (its status is completed or skipped)? -/
def isSkippable (j : BatchJob) : Bool :=
  j.status == some "completed" || j.status == some "skipped"

/-- The observable outcome of `process_job` on one job.  `process_job`
mutates the job dict in place and saves along the way; those internal
saves are abstracted away.  `done j` is a normal return leaving the job
as `j` (status `completed` on full success, `failed` when a step failed);
`raised j e` is an unhandled exception leaving the job as `j`;
`interrupted j` is a `KeyboardInterrupt` mid-job. -/
inductive JobRes where
  | done (j : BatchJob)
  | raised (j : BatchJob) (e : String)
  | interrupted (j : BatchJob)

/-- The job loop of `process_batch`.  `before` are the already-visited
jobs; `cfg.jobs` is kept equal to `before ++ current-tail` (in-place list
mutation).  An already `completed`/`skipped` job is passed over without a
stats update (`continue`).  An unhandled exception marks the job `failed`,
persists, and the loop goes on; a `KeyboardInterrupt` resets the job to
`pending`, persists, and propagates (the returned flag). -/
def batchLoop (runJob : BatchJob → JobRes) :
    List BatchJob → List BatchJob → BatchSt → BatchSt × Bool
  | _, [], st => (st, false)
  | before, j :: rest, st =>
    if isSkippable j then batchLoop runJob (before ++ [j]) rest st
    else
      match runJob j with
      | JobRes.done j1 =>
        let st1 := { st with cfg := { st.cfg with jobs := before ++ j1 :: rest } }
        batchLoop runJob (before ++ [j1]) rest (updateBatchStats st1)
      | JobRes.raised j1 _ =>
        let jf := { j1 with status := some "failed" }
        let st1 := saveCfg { st with cfg := { st.cfg with jobs := before ++ jf :: rest } }
        batchLoop runJob (before ++ [jf]) rest (updateBatchStats st1)
      | JobRes.interrupted j1 =>
        let jp := { j1 with status := some "pending" }
        let st1 := saveCfg { st with cfg := { st.cfg with jobs := before ++ jp :: rest } }
        (st1, true)

/-- `BatchProcessor.process_batch`: mark the batch `processing` and
persist, run the job loop, and on normal completion mark the batch
`completed`, persist, and recompute the stats once more.  The returned
flag reports a propagated `KeyboardInterrupt`. -/
def processBatch (runJob : BatchJob → JobRes) (st0 : BatchSt) : BatchSt × Bool :=
  let st1 := saveCfg { st0 with cfg := { st0.cfg with status := "processing" } }
  match batchLoop runJob [] st1.cfg.jobs st1 with
  | (st2, true) => (st2, true)
  | (st2, false) =>
    let st3 := saveCfg { st2 with cfg := { st2.cfg with status := "completed" } }
    (updateBatchStats st3, false)

/-! ## Timestamp refinement (`lens/refine_timestamps.py`)

Timestamps and scores are Python floats; they are embedded as exact
rationals (every value the algorithm manipulates is a small decimal, so
ordering and the `+ 0.5` arithmetic coincide). -/

/-- Is a character a regex `\w` character (ASCII approximation)? -/
def isWordChar (c : Char) : Bool := c.isAlphanum || c == Char.ofNat 95

/-- `re.findall` worker for the pattern of digits optionally followed by a
dot and more digits; `fuel` bounds the recursion by the input length. -/
def findNumbersAux : Nat → List Char → List String
  | 0, _ => []
  | _, [] => []
  | fuel + 1, c :: cs =>
    if c.isDigit then
      let ds := (c :: cs).takeWhile Char.isDigit
      let rest := (c :: cs).dropWhile Char.isDigit
      match rest with
      | c2 :: r2 =>
        if c2 = Char.ofNat 46 then
          match r2 with
          | d :: _ =>
            if d.isDigit then
              let ds2 := r2.takeWhile Char.isDigit
              let rest2 := r2.dropWhile Char.isDigit
              String.mk (ds ++ Char.ofNat 46 :: ds2) :: findNumbersAux fuel rest2
            else String.mk ds :: findNumbersAux fuel rest
          | [] => [String.mk ds]
        else String.mk ds :: findNumbersAux fuel rest
      | [] => [String.mk ds]
    else findNumbersAux fuel cs

/-- `re.findall` of a number pattern (digits with an optional decimal
part) over a string, e.g. finding `94.9` inside `$94.9`. -/
def findNumbers (s : String) : List String := findNumbersAux s.length s.toList

/-- `re.sub` removing every character that is neither `\w` nor
whitespace. -/
def cleanText (s : String) : String :=
  String.mk (s.toList.filter (fun c => isWordChar c || c.isWhitespace))

/-- Worker for Python `str.split()`: `cur` holds the reversed current
word. -/
def pySplitAux : List Char → List Char → List String
  | [], cur => if cur.isEmpty then [] else [String.mk cur.reverse]
  | c :: cs, cur =>
    if c.isWhitespace then
      if cur.isEmpty then pySplitAux cs []
      else String.mk cur.reverse :: pySplitAux cs []
    else pySplitAux cs (c :: cur)

/-- Python `str.split()`: split on whitespace runs, dropping empties. -/
def pySplit (s : String) : List String := pySplitAux s.toList []

/-- The `seen` set loop removing duplicates while keeping first
occurrences. -/
def dedupPreserveAux (seen : List String) : List String → List String
  | [] => []
  | k :: rest =>
    if seen.contains k then dedupPreserveAux seen rest
    else k :: dedupPreserveAux (k :: seen) rest

/-- Remove duplicates keeping first occurrences. -/
def dedupPreserve (l : List String) : List String := dedupPreserveAux [] l

/-- The expanded stop-word set of `extract_keywords_from_highlight`. -/
def stopWordsHighlight : List String :=
  ["the", "a", "an", "and", "or", "but", "in", "on", "at", "to", "for",
   "of", "is", "was", "are", "its", "with", "from", "this", "that", "now",
   "can", "run", "part", "per", "new", "hps", "has", "have", "been", "were",
   "will", "would", "could", "should", "than", "then", "also", "just", "more",
   "most", "some", "such", "into", "over", "only", "year", "years"]

/-- `extract_keywords_from_highlight(highlight)` applied to the
highlight's text: numbers first (up to 3), then long words (6+ chars, up
to 4), then medium words (4-5 chars, up to 3); deduplicated, capped at
8. -/
def extractKeywordsFromHighlight (text : String) : List String :=
  let t := pyLower text
  let numbers := findNumbers t
  let words := pySplit (cleanText t)
  let contentWords := words.filter
    (fun w => !stopWordsHighlight.contains w && 4 ≤ w.length)
  let longWords := contentWords.filter (fun w => 6 ≤ w.length)
  let mediumWords := contentWords.filter (fun w => 4 ≤ w.length && w.length < 6)
  let keywords := numbers.take 3 ++ longWords.take 4 ++ mediumWords.take 3
  (dedupPreserve keywords).take 8

/-- `is_number_keyword`: contains a digit or is a spelled-out digit word. -/
def isNumberKeyword (k : String) : Bool :=
  k.toList.any Char.isDigit ||
    ["one", "two", "three", "four", "five",
     "six", "seven", "eight", "nine", "ten"].contains k

/-- Substring test (Python `a in b` on strings). -/
def strContainsB (hay needle : String) : Bool := listInfixOf needle.toList hay.toList

/-- The match rule of `refine_timestamp_with_words`: for a 5+ char keyword
against a 5+ char word, mutual-substring; otherwise exact equality;
otherwise a 4+ char keyword whose first four characters prefix the word. -/
def keywordMatch (keyword wordText : String) : Bool :=
  if 5 ≤ keyword.length && 5 ≤ wordText.length then
    strContainsB wordText keyword || strContainsB keyword wordText
  else if keyword == wordText then true
  else if 4 ≤ keyword.length && (keyword.toList.take 4).isPrefixOf wordText.toList then
    true
  else false

/-- One word-level transcript entry; `start` may be absent, in which case
the enclosing segment's start is used. -/
structure TWord where
  word : String
  start : Option ℚ
deriving DecidableEq, Repr

/-- One transcript segment; `start` defaults to 0 when absent. -/
structure Segment where
  start : Option ℚ
  words : List TWord
deriving DecidableEq, Repr

/-- Word-level transcript data (`transcript_data["segments"]`). -/
structure Transcript where
  segments : List Segment
deriving DecidableEq, Repr

/-- One keyword match against a transcript word. -/
structure KwMatch where
  word : String
  keyword : String
  timestamp : ℚ
  isNumber : Bool
deriving DecidableEq, Repr

/-- The match-collection loop: every segment word (lower-cased and
stripped) against every keyword longer than 2 characters, in iteration
order. -/
def collectMatches (keywords : List String) (td : Transcript) : List KwMatch :=
  td.segments.foldl
    (fun acc seg =>
      let segStart := seg.start.getD 0
      seg.words.foldl
        (fun acc2 w =>
          let wordText := pyStrip (pyLower w.word)
          let wordStart := w.start.getD segStart
          keywords.foldl
            (fun acc3 kw =>
              if kw.length ≤ 2 then acc3
              else if keywordMatch kw wordText then
                acc3 ++ [⟨wordText, kw, wordStart, isNumberKeyword kw⟩]
              else acc3)
            acc2)
        acc)
    []

/-- Stable insertion into a time-sorted match list (an earlier-collected
match stays before later ones with an equal timestamp, as in Python's
stable sort). -/
def insertByTime (m : KwMatch) : List KwMatch → List KwMatch
  | [] => [m]
  | x :: xs =>
    if x.timestamp < m.timestamp then x :: insertByTime m xs else m :: x :: xs

/-- `all_matches.sort(key=timestamp)`, stably. -/
def sortByTime (l : List KwMatch) : List KwMatch := l.foldr insertByTime []

/-- A cluster: its first (earliest) match and the later members in time
order, mirroring `current_cluster` which always starts from one match. -/
abbrev Cluster := KwMatch × List KwMatch

/-- All members of a cluster, in order. -/
def clusterMembers (c : Cluster) : List KwMatch := c.1 :: c.2

/-- the timestamp of the first cluster member, the cluster's earliest match time. -/
def clusterTime (c : Cluster) : ℚ := c.1.timestamp

/-- The greedy clustering loop: a match within `window` of the current
cluster's first match joins it, otherwise it starts a new cluster. -/
def buildClustersAux (window : ℚ) : Cluster → List KwMatch → List Cluster
  | cur, [] => [cur]
  | cur, m :: ms =>
    if m.timestamp - cur.1.timestamp ≤ window then
      buildClustersAux window (cur.1, cur.2 ++ [m]) ms
    else cur :: buildClustersAux window (m, []) ms

/-- `score_cluster`: the number of distinct matched keywords, plus one
half when any matched keyword is numeric. -/
def clusterScore (c : Cluster) : ℚ :=
  ((dedupPreserve ((clusterMembers c).map (fun m => m.keyword))).length : ℚ) +
    (if (clusterMembers c).any (fun m => m.isNumber) then (1 : ℚ) / 2 else 0)

/-- Python `max(key=f)`: keep the current item unless a later one is
strictly greater, so the first maximal element wins. -/
def pythonMaxBy {α : Type} (f : α → ℚ) (a : α) (l : List α) : α :=
  l.foldl (fun acc y => if f acc < f y then y else acc) a

/-- Python `min(key=f)`: the first minimal element wins. -/
def pythonMinBy {α : Type} (f : α → ℚ) (a : α) (l : List α) : α :=
  l.foldl (fun acc y => if f y < f acc then y else acc) a

/-- `refine_timestamp_with_words(llm_timestamp, keywords, transcript_data,
window_seconds)`.  As in the source, `windowSeconds` is unused: the
clustering window is the fixed 15-second `CLUSTER_WINDOW`.  Selection:
the earliest cluster of score at least 3, else the highest-scoring cluster
of score at least 2, else the earliest numeric match, else the original
timestamp; a selected time gets a 0.5-second forward buffer. -/
def refineTimestampWithWords (llmTimestamp : ℚ) (keywords : List String)
    (td : Transcript) (windowSeconds : ℚ) : ℚ :=
  if keywords = [] then llmTimestamp
  else
    match sortByTime (collectMatches keywords td) with
    | [] => llmTimestamp
    | m :: ms =>
      let clusters := buildClustersAux 15 (m, []) ms
      let scored := clusters.map (fun c => (c, clusterScore c))
      let strong := scored.filter (fun p => 3 ≤ p.2)
      let good := scored.filter (fun p => 2 ≤ p.2)
      match strong with
      | p :: _ => clusterTime p.1 + 1 / 2
      | [] =>
        match good with
        | g :: gs => clusterTime (pythonMaxBy (fun q => q.2) g gs).1 + 1 / 2
        | [] =>
          match (m :: ms).filter (fun x => x.isNumber) with
          | n :: ns => (pythonMinBy (fun x => x.timestamp) n ns).timestamp + 1 / 2
          | [] => llmTimestamp

/-! ## Concrete instances used to settle the claims on explicit inputs -/

/-- A handler that always raises. -/
def handlerBoom : Handler := fun _ _ => .error "boom"

/-- A handler that returns a small result dict. -/
def handlerOk : Handler := fun _ _ => .ok [("out", Val.vInt 1)]

/-- A registry with the raising and the succeeding handler. -/
def handlersTest : String → Option Handler := fun n =>
  if n = "boom_handler" then some handlerBoom
  else if n = "ok_handler" then some handlerOk
  else none

/-- An orchestrator configuration whose condition evaluator never fails. -/
def cfgTest : Config :=
  { force := false
    handlers := handlersTest
    registeredNames := ["boom_handler", "ok_handler"]
    evalCond := fun _ _ => .ok false
    now := "t0" }

/-- An orchestrator configuration whose condition evaluator always raises
(e.g. a `NameError` inside `eval`). -/
def cfgCondErr : Config :=
  { cfgTest with evalCond := fun _ _ => .error "name oops is not defined" }

/-- An optional (not required) step bound to the raising handler. -/
def stepOpt : StepDef :=
  { name := "s1", handler := "boom_handler", required := false,
    skipIf := none, inputs := [], outputs := [], id := none }

/-- A required step bound to the raising handler. -/
def stepReq : StepDef :=
  { name := "s1", handler := "boom_handler", required := true,
    skipIf := none, inputs := [], outputs := [], id := none }

/-- A required step with a skip condition, bound to the succeeding
handler. -/
def stepCond : StepDef :=
  { name := "s1", handler := "ok_handler", required := true,
    skipIf := some "processing.transcribe.status != x", inputs := [], outputs := [], id := none }

/-- A fresh job with an empty processing map. -/
def jobFresh : JobRec := { status := "pending", input := [], fields := [], processing := [] }

/-- A fresh orchestrator state over `jobFresh`. -/
def stFresh : OrchState := { job := jobFresh, ctx := ⟨[]⟩, calls := 0 }

/-- A job whose single step `s1` is persisted as completed, with overall
status completed. -/
def jobDone : JobRec :=
  { status := "completed", input := [], fields := [],
    processing := [("s1", [("status", Val.vStr "completed"), ("out", Val.vInt 1)])] }

/-- Orchestrator state over `jobDone`. -/
def stDone : OrchState := { job := jobDone, ctx := ⟨[]⟩, calls := 0 }

/-- A step descriptor for the completed step `s1` of `jobDone`. -/
def stepDone : StepDef :=
  { name := "s1", handler := "ok_handler", required := true,
    skipIf := none, inputs := [], outputs := [], id := none }

/-- A step context in which only the step id `download` has outputs. -/
def ctxDownload : StepContext := ⟨[("download", [("file", Val.vStr "out.mp4")])]⟩

/-- Batch jobs for the three-job batch scenarios. -/
def bJob1 : BatchJob := { jobId := "b1", status := none, payload := [] }

/-- Second batch job (the one that raises in the C7 scenario). -/
def bJob2 : BatchJob := { jobId := "b2", status := none, payload := [] }

/-- Third batch job. -/
def bJob3 : BatchJob := { jobId := "b3", status := none, payload := [] }

/-- The per-job oracle of the C7 scenario: job `b2` raises an unhandled
exception mid-processing, every other job completes. -/
def runJobC7 : BatchJob → JobRes := fun j =>
  if j.jobId = "b2" then JobRes.raised { j with status := some "processing" } "boom"
  else JobRes.done { j with status := some "completed" }

/-- The per-job oracle of the C8 scenario: job `b2` receives a
`KeyboardInterrupt` mid-processing, every other job completes. -/
def runJobC8 : BatchJob → JobRes := fun j =>
  if j.jobId = "b2" then JobRes.interrupted { j with status := some "processing" }
  else JobRes.done { j with status := some "completed" }

/-- An initial batch config over the three jobs. -/
def batchCfg3 : BatchConfig := { status := "pending", jobs := [bJob1, bJob2, bJob3], stats := none }

/-- The first batch job already completed (skipped by the batch loop). -/
def bJob1done : BatchJob := { jobId := "b1", status := some "completed", payload := [] }

/-- The word-level transcript of the spec's clustering scenario
(section 8): timestamps 10, 10.4, 25, 25.3, 25.5, 25.7, 26. -/
def tdC2 : Transcript :=
  ⟨[⟨some 0,
     [⟨"revenue", some 10⟩, ⟨"was", some (52 / 5)⟩, ⟨"ninety", some 25⟩,
      ⟨"four", some (253 / 10)⟩, ⟨"point", some (51 / 2)⟩, ⟨"nine", some (257 / 10)⟩,
      ⟨"billion", some 26⟩]⟩]⟩

/-- A one-keyword match used to instantiate the C9 theorem. -/
def mW : KwMatch := ⟨"alpha", "alpha", 0, false⟩

/-! ## Helper lemmas about the dict embedding -/

theorem alookup_aset_self {β : Type} (d : List (String × β)) (k : String) (v : β) :
    alookup (aset d k v) k = some v := by
  induction d with
  | nil => simp [aset, alookup]
  | cons kv rest ih =>
    by_cases h : kv.1 = k
    · cases kv; simp_all [aset, alookup]
    · cases kv; simp_all [aset, alookup]

theorem alookup_aset_ne {β : Type} (d : List (String × β)) (k k2 : String) (v : β)
    (hne : k2 ≠ k) : alookup (aset d k2 v) k = alookup d k := by
  induction d with
  | nil => simp [aset, alookup, hne]
  | cons kv rest ih =>
    by_cases h : kv.1 = k2
    · cases kv; simp_all [aset, alookup]
    · cases kv; simp_all [aset, alookup]

theorem alookup_merge_ne (data : Dict) (k : String)
    (hd : ∀ kv ∈ data, kv.1 ≠ k) :
    ∀ r : Dict, alookup (data.foldl (fun r kv => aset r kv.1 kv.2) r) k = alookup r k := by
  induction data with
  | nil => intro r; rfl
  | cons kv rest ih =>
    intro r
    have h1 : kv.1 ≠ k := hd kv (List.mem_cons_self kv rest)
    have h2 : ∀ kv2 ∈ rest, kv2.1 ≠ k := fun kv2 hm => hd kv2 (List.mem_cons_of_mem kv hm)
    simp only [List.foldl]
    rw [ih h2, alookup_aset_ne _ _ _ _ h1]

theorem stepStatus_updateStep (j : JobRec) (name status : String) (data : Dict)
    (hd : ∀ kv ∈ data, kv.1 ≠ "status") :
    stepStatus (updateStep j name status data) name = some (Val.vStr status) := by
  unfold stepStatus updateStep
  rw [alookup_aset_self]
  simp only [Option.some_bind]
  rw [alookup_merge_ne data "status" hd, alookup_aset_self]

/-! ## Claim C2 — the spec's clustering scenario -/

/-- C2: on the spec's clustering scenario (transcript words revenue@10,
was@10.4, ninety@25, four@25.3, point@25.5, nine@25.7, billion@26; event
text "Revenue of $94.9 billion"; approximate timestamp 5; 15-second
window) the code does NOT return the expected 25.5: the extracted
keywords are `94.9`, `revenue`, `billion`; the digit keyword `94.9` never
matches the spoken words `ninety four point nine`, so only two
single-keyword clusters (score 1 each) arise, no cluster reaches score 2,
there is no numeric match, and the original timestamp 5 is returned
unchanged. -/
theorem C2_number_words_not_matched :
    extractKeywordsFromHighlight "Revenue of $94.9 billion" = ["94.9", "revenue", "billion"] ∧
    collectMatches (extractKeywordsFromHighlight "Revenue of $94.9 billion") tdC2 =
      [⟨"revenue", "revenue", 10, false⟩, ⟨"billion", "billion", 26, false⟩] ∧
    refineTimestampWithWords 5 (extractKeywordsFromHighlight "Revenue of $94.9 billion") tdC2 15 = 5 ∧
    (5 : ℚ) ≠ 51 / 2 := by
  have hkw : extractKeywordsFromHighlight "Revenue of $94.9 billion" =
      ["94.9", "revenue", "billion"] := by decide
  have hcm : collectMatches (extractKeywordsFromHighlight "Revenue of $94.9 billion") tdC2 =
      [⟨"revenue", "revenue", 10, false⟩, ⟨"billion", "billion", 26, false⟩] := by decide
  refine ⟨hkw, hcm, ?_, by norm_num⟩
  rw [refineTimestampWithWords, if_neg (by rw [hkw]; simp), hcm]
  norm_num [sortByTime, insertByTime, buildClustersAux, clusterScore, clusterMembers,
    dedupPreserve, dedupPreserveAux, clusterTime, List.filter, isNumberKeyword]

/-! ## Claim C3 — persistence of the job record -/

/-- C3 (counterexample): `JobManager._save` does not write a temporary
file and rename it over the job file — its trace contains no rename onto
the job file — and a crash mid-write can leave a state in which the job
file holds neither its old content nor the new serialization (a truncated
prefix such as `new` of `newcontent`). -/
theorem C3_counterexample :
    ((saveOps "/jobs/j1" "/jobs/j1/job.yaml" "newcontent").any
        (isRenameTo "/jobs/j1/job.yaml") = false) ∧
    ∃ fs2 ∈ crashStates [("/jobs/j1/job.yaml", "old")]
        (saveOps "/jobs/j1" "/jobs/j1/job.yaml" "newcontent"),
      alookup fs2 "/jobs/j1/job.yaml" ≠ some "old" ∧
      alookup fs2 "/jobs/j1/job.yaml" ≠ some "newcontent" := by
  constructor
  · rfl
  · decide

/-- Every list is a `isPrefixOf` of itself (over characters). -/
theorem listIsPrefixOf_self (l : List Char) : l.isPrefixOf l = true := by
  induction l with
  | nil => rfl
  | cons c t ih => simp [List.isPrefixOf, ih]

/-- `listInfixOf` finds a needle that the haystack ends with. -/
theorem listInfixOf_suffix (pre needle : List Char) :
    listInfixOf needle (pre ++ needle) = true := by
  induction pre with
  | nil =>
    cases needle with
    | nil => rfl
    | cons c t => simp [listInfixOf, listIsPrefixOf_self]
  | cons p ps ih => simp [listInfixOf, ih]

/-- A string contains any suffix of itself as a substring. -/
theorem strContainsB_append (pre needle : String) :
    strContainsB (pre ++ needle) needle = true := by
  unfold strContainsB
  show listInfixOf needle.data (pre ++ needle).data = true
  rw [String.data_append]
  exact listInfixOf_suffix pre.data needle.data

/-- C3 (amended): `_save` creates the parent directory and then writes the
whole serialized record directly to the job file (truncate-and-write, no
temporary file, no rename); an uninterrupted save leaves the file holding
exactly the full serialization, but a crash mid-write can leave the file
truncated (here: empty, the state right after the truncating open). -/
theorem C3_amended_direct_write (jobDir jobFile serialized : String) (fs : Fs) :
    saveOps jobDir jobFile serialized =
      [FsOp.mkdirParents jobDir, FsOp.writeFile jobFile serialized] ∧
    alookup (runOps fs (saveOps jobDir jobFile serialized)) jobFile = some serialized ∧
    ∃ fs2 ∈ crashStates fs (saveOps jobDir jobFile serialized),
      alookup fs2 jobFile = some "" := by
  refine ⟨rfl, ?_, ?_⟩
  · show alookup (applyOp (applyOp fs (FsOp.mkdirParents jobDir))
      (FsOp.writeFile jobFile serialized)) jobFile = some serialized
    simp [applyOp, alookup_aset_self]
  · refine ⟨aset fs jobFile "", ?_, alookup_aset_self _ _ _⟩
    have h0 : ("" : String) ∈ strPrefixes serialized := by
      unfold strPrefixes
      exact List.mem_map.mpr ⟨0, List.mem_range.mpr (Nat.succ_pos _), rfl⟩
    have hmm : aset fs jobFile "" ∈
        (strPrefixes serialized).map (fun pre => aset fs jobFile pre) :=
      List.mem_map_of_mem _ h0
    show aset fs jobFile "" ∈ crashStates fs
      [FsOp.mkdirParents jobDir, FsOp.writeFile jobFile serialized]
    simp only [crashStates, midStates, List.nil_append, applyOp]
    exact List.mem_cons_of_mem _ (List.mem_cons_of_mem _ (List.mem_append_left _ hmm))

/-! ## Claim C5 — variable-resolution error messages -/

/-- C5 (counterexample): resolving the expression dollar-brace
`foo.bar` brace against a context whose only step with outputs is
`download` raises an error whose message is the fixed unknown-step text built by
`msgNoStep` — it does not list the available
step id `download` (it does not even mention it). -/
theorem C5_counterexample :
    resolveVariable ctxDownload jobFresh "$\x7bfoo.bar\x7d" =
      .error (msgNoStep "foo") ∧
    strContainsB (msgNoStep "foo") "download" = false := by
  constructor
  · rfl
  · decide

/-- C5 (amended): an unknown source step (absent from the outputs map,
which also covers a step that has not yet produced outputs) fails with
the fixed message that does not enumerate step ids, while a known step
lacking the requested field fails with a message that lists the step's
available output fields (the Python repr of the full key list appears
verbatim in the message). -/
theorem C5_amended_messages (ctx : StepContext) (stepId key : String) :
    (alookup ctx.outputs stepId = none →
      getOutput ctx stepId key = .error (msgNoStep stepId)) ∧
    (∀ outs, alookup ctx.outputs stepId = some outs → alookup outs key = none →
      getOutput ctx stepId key = .error (msgNoKey stepId key (akeys outs)) ∧
      strContainsB (msgNoKey stepId key (akeys outs)) (pyStrList (akeys outs)) = true) := by
  constructor
  · intro h; unfold getOutput; rw [h]
  · intro outs h1 h2
    refine ⟨by simp [getOutput, h1, h2], ?_⟩
    exact strContainsB_append
      ("Step " ++ pyQuote stepId ++ " has no output " ++ pyQuote key ++ ". Available: ")
      (pyStrList (akeys outs))

/-- C5 witness: the amended theorem applied to the concrete context with
only the step `download` registered. -/
theorem C5_amended_messages_witness :
    getOutput ctxDownload "download" "bar" =
      .error (msgNoKey "download" "bar" ["file"]) :=
  ((C5_amended_messages ctxDownload "download" "bar").2
    [("file", Val.vStr "out.mp4")] rfl rfl).1

/-! ## Claim C1 — whole-workflow status -/

/-- The final status of `run_all` is decided by the count of failed
outcomes. -/
theorem runAll_status_eq (cfg : Config) (steps : List StepDef) (st : OrchState) :
    (runAll cfg steps st).job.status =
      (if (runAllOutcomes cfg steps st).countP (fun r => outcomeFailed r) = 0 then
        "completed" else "failed") := by
  simp only [runAll, runAllOutcomes]
  split <;> rfl

/-- C1 (amended): the persisted whole-workflow status is `completed` iff
no step outcome counted as failed — and an optional step's failure counts,
so any failure (required or not) yields `failed`; the status is one of
`completed`/`failed` and is persisted (it is the job's stored status)
before `run_all` returns. -/
theorem C1_amended_workflow_status (cfg : Config) (steps : List StepDef) (st : OrchState) :
    ((runAll cfg steps st).job.status = "completed" ↔
      ∀ r ∈ runAllOutcomes cfg steps st, outcomeFailed r = false) ∧
    ((runAll cfg steps st).job.status = "completed" ∨
      (runAll cfg steps st).job.status = "failed") := by
  constructor
  · rw [runAll_status_eq]
    by_cases hc : (runAllOutcomes cfg steps st).countP (fun r => outcomeFailed r) = 0
    · rw [if_pos hc]
      rw [List.countP_eq_zero] at hc
      simp only [Bool.not_eq_true] at hc
      exact iff_of_true rfl hc
    · rw [if_neg hc]
      refine iff_of_false (by decide) ?_
      intro hall
      exact hc (List.countP_eq_zero.mpr (fun a ha => by simp [hall a ha]))
  · rw [runAll_status_eq]
    by_cases hc : (runAllOutcomes cfg steps st).countP (fun r => outcomeFailed r) = 0
    · rw [if_pos hc]; left; rfl
    · rw [if_neg hc]; right; rfl

/-- C1 (counterexample): a one-step workflow whose single step is marked
not required and whose handler raises finishes with persisted status
`failed`, although no required-step failure occurred — refuting the
claimed equivalence between status `completed` and the absence of an
unrecovered required-step failure. -/
theorem C1_counterexample :
    ¬ (((runAll cfgTest [stepOpt] stFresh).job.status = "completed") ↔
       ∀ r ∈ runAllOutcomes cfgTest [stepOpt] stFresh, outcomeRaised r = false) := by
  decide

/-! ## Claim C4 — re-running a fully completed job -/

/-- A step persisted as `completed` hits the already-completed skip test
when `--force` is off. -/
theorem completedHit_of_stepStatus (cfg : Config) (j : JobRec) (name : String)
    (hf : cfg.force = false)
    (h : stepStatus j name = some (Val.vStr "completed")) :
    completedHit cfg j name = true := by
  unfold completedHit
  unfold stepStatus at h
  cases halo : alookup j.processing name with
  | none => rw [halo] at h; simp at h
  | some r =>
    rw [halo] at h
    simp only [Option.some_bind] at h
    simp [hf, halo, h]

/-- A skipped step returns success without touching the state. -/
theorem executeStep_skip (cfg : Config) (st : OrchState) (step : StepDef)
    (h : (shouldSkipStep cfg st.job step).1 = true) :
    executeStep cfg st step = (st, .ok true) := by
  unfold executeStep
  rw [if_pos h]

/-- When every step of the workflow is persisted as `completed` and
`--force` is off, the step loop touches nothing and reports all
successes. -/
theorem runSteps_all_completed (cfg : Config) (steps : List StepDef) (st : OrchState)
    (hf : cfg.force = false)
    (hall : ∀ s ∈ steps, stepStatus st.job s.name = some (Val.vStr "completed")) :
    runSteps cfg steps st = (st, steps.map (fun _ => Except.ok true)) := by
  induction steps with
  | nil => rfl
  | cons s rest ih =>
    have hs : (shouldSkipStep cfg st.job s).1 = true := by
      unfold shouldSkipStep
      rw [if_pos (completedHit_of_stepStatus cfg st.job s.name hf
        (hall s (List.mem_cons_self s rest)))]
    have hex := executeStep_skip cfg st s hs
    have ihr := ih (fun s2 hm => hall s2 (List.mem_cons_of_mem s hm))
    simp only [runSteps, hex, ihr, List.map]

/-- C4: re-running a workflow over a job whose steps are all persisted as
`completed` (overall status `completed`), without force-rerun, invokes
zero handlers and ends in exactly the initial state: the persisted job
record (status transiently set to `processing` and back to `completed`)
equals the original, and the invocation counter is unchanged. -/
theorem C4_rerun_completed_job (cfg : Config) (steps : List StepDef) (st : OrchState)
    (hf : cfg.force = false)
    (hall : ∀ s ∈ steps, stepStatus st.job s.name = some (Val.vStr "completed"))
    (hstat : st.job.status = "completed") :
    runAll cfg steps st = st ∧ (runAll cfg steps st).calls = st.calls := by
  have hall0 : ∀ s ∈ steps,
      stepStatus ({ st with job := setStatus st.job "processing" } : OrchState).job s.name =
        some (Val.vStr "completed") := by
    intro s hm
    cases hj : st.job with
    | mk s0 i0 f0 p0 =>
      have := hall s hm
      rw [hj] at this
      exact this
  have hrs := runSteps_all_completed cfg steps
    { st with job := setStatus st.job "processing" } hf hall0
  have hmain : runAll cfg steps st = st := by
    simp only [runAll, hrs]
    have hcount : (steps.map (fun _ => Except.ok true)).countP
        (fun r => outcomeFailed r) = 0 := by
      rw [List.countP_eq_zero]
      intro a ha
      rcases List.mem_map.mp ha with ⟨_, _, rfl⟩
      simp [outcomeFailed]
    rw [if_pos hcount]
    cases hj : st.job with
    | mk s0 i0 f0 p0 =>
      rw [hj] at hstat
      simp only at hstat
      cases st with
      | mk j c k =>
        simp only at hj
        simp [setStatus, hj, hstat]
  exact ⟨hmain, by rw [hmain]⟩

/-- C4 witness: the concrete completed one-step job is left untouched. -/
theorem C4_rerun_completed_job_witness :
    runAll cfgTest [stepDone] stDone = stDone ∧
    (runAll cfgTest [stepDone] stDone).calls = stDone.calls :=
  C4_rerun_completed_job cfgTest [stepDone] stDone rfl (by decide) rfl

/-! ## Claim C6 — handler exceptions: required vs optional steps -/

/-- The state side of `failStep` marks the step `failed` and records the
prefixed error message, whether or not the step is required. -/
theorem failStep_record (cfg : Config) (st : OrchState) (step : StepDef) (e : String) :
    stepStatus (failStep cfg st step e).1.job step.name = some (Val.vStr "failed") ∧
    stepError (failStep cfg st step e).1.job step.name =
      some (Val.vStr ("Failed: " ++ e)) := by
  have h1 : (failStep cfg st step e).1 =
      { st with job := (updateStep st.job step.name "failed"
          [("error", Val.vStr ("Failed: " ++ e)), ("failed_at", Val.vStr cfg.now)]) } := by
    unfold failStep
    split <;> rfl
  rw [h1]
  constructor
  · refine stepStatus_updateStep _ _ _ _ ?_
    intro kv hm
    simp only [List.mem_cons, List.mem_singleton] at hm
    rcases hm with rfl | rfl | hm
    · simp
    · simp
    · cases hm
  · unfold stepError updateStep
    rw [alookup_aset_self]
    simp only [Option.some_bind, List.foldl]
    rw [alookup_aset_ne _ _ _ _ (by decide), alookup_aset_self]

/-- Under a false skip check, successful input resolution, a registered
handler and a raising handler call, `_execute_step` reaches its `except`
branch with the invocation counted. -/
theorem executeStep_handler_raises (cfg : Config) (st : OrchState) (step : StepDef)
    (h : Handler) (e : String) (resolved : Dict)
    (hskip : (shouldSkipStep cfg st.job step).1 = false)
    (hres : resolveInputs st.ctx
      (updateStep st.job step.name "in_progress" [("started_at", Val.vStr cfg.now)]) step =
        .ok resolved)
    (hh : cfg.handlers step.handler = some h)
    (hraise : h (updateStep st.job step.name "in_progress"
      [("started_at", Val.vStr cfg.now)]) resolved = .error e) :
    executeStep cfg st step =
      failStep cfg
        { st with
          job := updateStep st.job step.name "in_progress" [("started_at", Val.vStr cfg.now)]
          calls := st.calls + 1 } step e := by
  unfold executeStep
  simp only [hskip, Bool.false_eq_true, if_false]
  simp only [hres, hh, hraise]

/-- C6: when a step's handler raises, the step is persisted as `failed`
with the message (prefixed `Failed: `); a required step re-raises the
exception out of `_execute_step` and `run_all` executes no further step,
while a non-required step returns `False` and the loop continues with the
remaining steps. -/
theorem C6_handler_exception (cfg : Config) (st : OrchState) (step : StepDef)
    (rest : List StepDef) (h : Handler) (e : String) (resolved : Dict)
    (hskip : (shouldSkipStep cfg st.job step).1 = false)
    (hres : resolveInputs st.ctx
      (updateStep st.job step.name "in_progress" [("started_at", Val.vStr cfg.now)]) step =
        .ok resolved)
    (hh : cfg.handlers step.handler = some h)
    (hraise : h (updateStep st.job step.name "in_progress"
      [("started_at", Val.vStr cfg.now)]) resolved = .error e) :
    stepStatus (executeStep cfg st step).1.job step.name = some (Val.vStr "failed") ∧
    stepError (executeStep cfg st step).1.job step.name =
      some (Val.vStr ("Failed: " ++ e)) ∧
    (step.required = true →
      (executeStep cfg st step).2 = .error e ∧
      runSteps cfg (step :: rest) st = ((executeStep cfg st step).1, [.error e])) ∧
    (step.required = false →
      (executeStep cfg st step).2 = .ok false ∧
      runSteps cfg (step :: rest) st =
        ((runSteps cfg rest (executeStep cfg st step).1).1,
          .ok false :: (runSteps cfg rest (executeStep cfg st step).1).2)) := by
  have hex := executeStep_handler_raises cfg st step h e resolved hskip hres hh hraise
  have hrec := failStep_record cfg
    { st with
      job := updateStep st.job step.name "in_progress" [("started_at", Val.vStr cfg.now)]
      calls := st.calls + 1 } step e
  refine ⟨by rw [hex]; exact hrec.1, by rw [hex]; exact hrec.2, ?_, ?_⟩
  · intro hreq
    have hsplit : executeStep cfg st step = ((executeStep cfg st step).1, .error e) := by
      rw [hex]; unfold failStep; rw [hreq]; simp
    refine ⟨by rw [hsplit], ?_⟩
    show (match executeStep cfg st step with
      | (st1, .error e) => (st1, [.error e])
      | (st1, .ok b) =>
        let p := runSteps cfg rest st1
        (p.1, .ok b :: p.2)) = ((executeStep cfg st step).1, [.error e])
    rw [hsplit]
  · intro hreq
    have hsplit : executeStep cfg st step = ((executeStep cfg st step).1, .ok false) := by
      rw [hex]; unfold failStep; rw [hreq]; simp
    refine ⟨by rw [hsplit], ?_⟩
    show (match executeStep cfg st step with
      | (st1, .error e) => (st1, [.error e])
      | (st1, .ok b) =>
        let p := runSteps cfg rest st1
        (p.1, .ok b :: p.2)) =
      ((runSteps cfg rest (executeStep cfg st step).1).1,
        .ok false :: (runSteps cfg rest (executeStep cfg st step).1).2)
    rw [hsplit]

/-- C6 witness: the required raising step at the concrete configuration:
marked failed with the message, exception re-raised, no further step
run. -/
theorem C6_handler_exception_witness :
    stepStatus (executeStep cfgTest stFresh stepReq).1.job stepReq.name =
      some (Val.vStr "failed") ∧
    stepError (executeStep cfgTest stFresh stepReq).1.job stepReq.name =
      some (Val.vStr ("Failed: " ++ "boom")) ∧
    (stepReq.required = true →
      (executeStep cfgTest stFresh stepReq).2 = .error "boom" ∧
      runSteps cfgTest [stepReq, stepOpt] stFresh =
        ((executeStep cfgTest stFresh stepReq).1, [.error "boom"])) ∧
    (stepReq.required = false →
      (executeStep cfgTest stFresh stepReq).2 = .ok false ∧
      runSteps cfgTest [stepReq, stepOpt] stFresh =
        ((runSteps cfgTest [stepOpt] (executeStep cfgTest stFresh stepReq).1).1,
          .ok false ::
            (runSteps cfgTest [stepOpt] (executeStep cfgTest stFresh stepReq).1).2)) :=
  C6_handler_exception cfgTest stFresh stepReq [stepOpt] handlerBoom "boom" []
    (by rfl) (by rfl) (by rfl) (by rfl)

/-! ## Claim C10 — a raising skip condition is treated as false -/

/-- C10: when evaluating a step's `skip_if` condition raises, the
condition counts as false: the step is not skipped, and (with inputs
resolving and the handler succeeding) the handler is invoked normally —
the invocation counter increases and the step ends `completed`, not
`failed` or skipped. -/
theorem C10_condition_error_runs_step (cfg : Config) (st : OrchState) (step : StepDef)
    (cond e : String) (h : Handler) (resolved result : Dict)
    (hcond : step.skipIf = some cond)
    (herr : cfg.evalCond cond st.job = .error e)
    (hnc : completedHit cfg st.job step.name = false)
    (hres : resolveInputs st.ctx
      (updateStep st.job step.name "in_progress" [("started_at", Val.vStr cfg.now)]) step =
        .ok resolved)
    (hh : cfg.handlers step.handler = some h)
    (hok : h (updateStep st.job step.name "in_progress"
      [("started_at", Val.vStr cfg.now)]) resolved = .ok result)
    (hrk : ∀ kv ∈ result, kv.1 ≠ "status") :
    evaluateCondition cfg st.job cond = false ∧
    shouldSkipStep cfg st.job step = (false, none) ∧
    (executeStep cfg st step).2 = .ok true ∧
    (executeStep cfg st step).1.calls = st.calls + 1 ∧
    stepStatus (executeStep cfg st step).1.job step.name = some (Val.vStr "completed") := by
  have hev : evaluateCondition cfg st.job cond = false := by
    unfold evaluateCondition
    rw [herr]
  have hss : shouldSkipStep cfg st.job step = (false, none) := by
    unfold shouldSkipStep
    rw [if_neg (by simp [hnc]), hcond]
    simp only [hev, Bool.false_eq_true, if_false]
  have hskip1 : (shouldSkipStep cfg st.job step).1 = false := by rw [hss]
  have hexe : executeStep cfg st step =
      ({ job := (updateStep
            (updateStep st.job step.name "in_progress" [("started_at", Val.vStr cfg.now)])
            step.name "completed" ([("completed_at", Val.vStr cfg.now)] ++ result)),
         ctx := registerOutputs st.ctx step result,
         calls := st.calls + 1 }, .ok true) := by
    unfold executeStep
    simp only [hskip1, Bool.false_eq_true, if_false]
    simp only [hres, hh, hok]
  refine ⟨hev, hss, by rw [hexe], by rw [hexe], ?_⟩
  rw [hexe]
  refine stepStatus_updateStep _ _ _ _ ?_
  intro kv hm
  rcases List.mem_cons.mp hm with rfl | hm2
  · simp
  · exact hrk kv hm2

/-- C10 witness: the concrete step whose skip condition raises inside
`eval` runs its handler and completes. -/
theorem C10_condition_error_runs_step_witness :
    evaluateCondition cfgCondErr stFresh.job "processing.transcribe.status != x" = false ∧
    shouldSkipStep cfgCondErr stFresh.job stepCond = (false, none) ∧
    (executeStep cfgCondErr stFresh stepCond).2 = .ok true ∧
    (executeStep cfgCondErr stFresh stepCond).1.calls = stFresh.calls + 1 ∧
    stepStatus (executeStep cfgCondErr stFresh stepCond).1.job stepCond.name =
      some (Val.vStr "completed") :=
  C10_condition_error_runs_step cfgCondErr stFresh stepCond
    "processing.transcribe.status != x" "name oops is not defined" handlerOk []
    [("out", Val.vInt 1)] (by rfl) (by rfl) (by rfl) (by rfl) (by rfl) (by rfl)
    (by decide)

/-! ## Claim C7 — batch isolation of a raising job -/

/-- C7: in a three-job batch where processing of the second job raises an
unhandled exception while the first and third run to completion, the
batch is not aborted (no exception out of `process_batch`): the second
job is persisted as `failed`, the other two as `completed`, the final
aggregate counts are exactly 2 completed and 1 failed (out of 3), and the
persisted snapshot trace shows the aggregate counts recomputed and saved
after every processed job. -/
theorem C7_batch_isolation (runJob : BatchJob → JobRes) (j1 j2 j3 j1' j2' j3' : BatchJob)
    (e s0 : String) (stats0 : Option BatchStats) (t0 : List BatchConfig)
    (hs1 : isSkippable j1 = false) (hs2 : isSkippable j2 = false)
    (hs3 : isSkippable j3 = false)
    (hr1 : runJob j1 = JobRes.done j1') (hr2 : runJob j2 = JobRes.raised j2' e)
    (hr3 : runJob j3 = JobRes.done j3')
    (h1 : j1'.status = some "completed") (h3 : j3'.status = some "completed") :
    (processBatch runJob ⟨⟨s0, [j1, j2, j3], stats0⟩, t0⟩).2 = false ∧
    (processBatch runJob ⟨⟨s0, [j1, j2, j3], stats0⟩, t0⟩).1.cfg.status = "completed" ∧
    (processBatch runJob ⟨⟨s0, [j1, j2, j3], stats0⟩, t0⟩).1.cfg.jobs =
      [j1', { j2' with status := some "failed" }, j3'] ∧
    (processBatch runJob ⟨⟨s0, [j1, j2, j3], stats0⟩, t0⟩).1.cfg.stats =
      some ⟨3, 0, 0, 2, 1, 0⟩ ∧
    (processBatch runJob ⟨⟨s0, [j1, j2, j3], stats0⟩, t0⟩).1.trace =
      t0 ++
        [⟨"processing", [j1, j2, j3], stats0⟩,
         ⟨"processing", [j1', j2, j3], some (computeStats [j1', j2, j3])⟩,
         ⟨"processing", [j1', { j2' with status := some "failed" }, j3],
           some (computeStats [j1', j2, j3])⟩,
         ⟨"processing", [j1', { j2' with status := some "failed" }, j3],
           some (computeStats [j1', { j2' with status := some "failed" }, j3])⟩,
         ⟨"processing", [j1', { j2' with status := some "failed" }, j3'],
           some (computeStats [j1', { j2' with status := some "failed" }, j3'])⟩,
         ⟨"completed", [j1', { j2' with status := some "failed" }, j3'],
           some (computeStats [j1', { j2' with status := some "failed" }, j3'])⟩,
         ⟨"completed", [j1', { j2' with status := some "failed" }, j3'],
           some (computeStats [j1', { j2' with status := some "failed" }, j3'])⟩] := by
  have hstats : computeStats [j1', { j2' with status := some "failed" }, j3'] =
      ⟨3, 0, 0, 2, 1, 0⟩ := by
    simp [computeStats, List.countP_cons, h1, h3]
  simp only [processBatch, batchLoop, saveCfg, updateBatchStats, hs1, hs2, hs3,
    Bool.false_eq_true, if_false, hr1, hr2, hr3, List.nil_append, List.append_nil,
    List.cons_append, List.singleton_append, List.append_assoc, hstats]
  exact ⟨trivial, trivial, trivial, trivial, trivial⟩

/-- C7 witness: the concrete three-job batch in which `b2` raises ends
with no propagated exception and aggregate counts 2 completed, 1
failed. -/
theorem C7_batch_isolation_witness :
    (processBatch runJobC7 ⟨batchCfg3, []⟩).2 = false ∧
    (processBatch runJobC7 ⟨batchCfg3, []⟩).1.cfg.stats = some ⟨3, 0, 0, 2, 1, 0⟩ :=
  ⟨(C7_batch_isolation runJobC7 bJob1 bJob2 bJob3
      ⟨"b1", some "completed", []⟩ ⟨"b2", some "processing", []⟩ ⟨"b3", some "completed", []⟩
      "boom" "pending" none [] rfl rfl rfl rfl rfl rfl rfl rfl).1,
   (C7_batch_isolation runJobC7 bJob1 bJob2 bJob3
      ⟨"b1", some "completed", []⟩ ⟨"b2", some "processing", []⟩ ⟨"b3", some "completed", []⟩
      "boom" "pending" none [] rfl rfl rfl rfl rfl rfl rfl rfl).2.2.2.1⟩

/-! ## Claim C8 — interrupt mid-job resets the job to pending -/

/-- The batch loop passes over a leading run of already
completed/skipped jobs without touching the state. -/
theorem batchLoop_skip_prefix (runJob : BatchJob → JobRes) :
    ∀ (before acc rest : List BatchJob) (st : BatchSt),
      (∀ b ∈ before, isSkippable b = true) →
      batchLoop runJob acc (before ++ rest) st = batchLoop runJob (acc ++ before) rest st := by
  intro before
  induction before with
  | nil => intro acc rest st _; simp
  | cons b bs ih =>
    intro acc rest st hb
    have hbb : isSkippable b = true := hb b (List.mem_cons_self b bs)
    have hbs : ∀ b2 ∈ bs, isSkippable b2 = true :=
      fun b2 hm => hb b2 (List.mem_cons_of_mem b hm)
    simp only [List.cons_append, batchLoop, hbb, if_true, List.append_eq]
    rw [ih (acc ++ [b]) rest st hbs]
    simp [List.append_assoc]

/-- C8: a `KeyboardInterrupt` raised while a (non-skipped) batch job is
mid-execution makes `process_batch` reset that job's status to `pending`
— not `processing` — persist the batch record, and only then let the
interrupt propagate (the returned interrupt flag): the final persisted
snapshot is exactly the final config, whose job list holds the
interrupted job as `pending`, and no completion epilogue runs. -/
theorem C8_interrupt_resets_pending (runJob : BatchJob → JobRes)
    (before rest : List BatchJob) (j j' : BatchJob) (s0 : String)
    (stats0 : Option BatchStats) (t0 : List BatchConfig)
    (hb : ∀ b ∈ before, isSkippable b = true)
    (hns : isSkippable j = false)
    (hr : runJob j = JobRes.interrupted j') :
    (processBatch runJob ⟨⟨s0, before ++ j :: rest, stats0⟩, t0⟩).2 = true ∧
    (processBatch runJob ⟨⟨s0, before ++ j :: rest, stats0⟩, t0⟩).1.cfg =
      ⟨"processing", before ++ ({ j' with status := some "pending" } :: rest), stats0⟩ ∧
    (processBatch runJob ⟨⟨s0, before ++ j :: rest, stats0⟩, t0⟩).1.trace =
      t0 ++ [⟨"processing", before ++ j :: rest, stats0⟩,
             ⟨"processing", before ++ ({ j' with status := some "pending" } :: rest),
               stats0⟩] := by
  have hskip := batchLoop_skip_prefix runJob before [] (j :: rest)
    ⟨⟨"processing", before ++ j :: rest, stats0⟩,
     t0 ++ [⟨"processing", before ++ j :: rest, stats0⟩]⟩ hb
  simp only [processBatch, saveCfg]
  rw [hskip]
  simp only [List.nil_append, batchLoop, saveCfg, hns, Bool.false_eq_true, if_false, hr,
    List.append_assoc, List.cons_append, List.singleton_append]
  exact ⟨trivial, trivial, trivial⟩

/-- C8 witness: in the concrete batch (job `b1` already completed, `b2`
interrupted mid-run, `b3` pending), the interrupt propagates with `b2`
persisted as `pending`. -/
theorem C8_interrupt_resets_pending_witness :
    (processBatch runJobC8 ⟨⟨"pending", [bJob1done, bJob2, bJob3], none⟩, []⟩).2 = true ∧
    (processBatch runJobC8 ⟨⟨"pending", [bJob1done, bJob2, bJob3], none⟩, []⟩).1.cfg =
      ⟨"processing", [bJob1done] ++ ({ (⟨"b2", some "processing", []⟩ : BatchJob) with
        status := some "pending" } :: [bJob3]), none⟩ :=
  ⟨(C8_interrupt_resets_pending runJobC8 [bJob1done] [bJob3] bJob2
      ⟨"b2", some "processing", []⟩ "pending" none [] (by decide) rfl rfl).1,
   (C8_interrupt_resets_pending runJobC8 [bJob1done] [bJob3] bJob2
      ⟨"b2", some "processing", []⟩ "pending" none [] (by decide) rfl rfl).2.1⟩

/-! ## Claim C9 — determinism and earliest-first tie-breaking -/

/-- Unfolding `pythonMaxBy` over a cons cell. -/
theorem pythonMaxBy_cons {α : Type} (f : α → ℚ) (a b : α) (t : List α) :
    pythonMaxBy f a (b :: t) = pythonMaxBy f (if f a < f b then b else a) t := rfl

/-- `pythonMaxBy` returns the seed, or a list element of strictly larger
key than the seed — Python's `max` replaces the current element only on a
strict increase. -/
theorem pythonMaxBy_eq_or {α : Type} (f : α → ℚ) :
    ∀ (l : List α) (a : α), pythonMaxBy f a l = a ∨
      (pythonMaxBy f a l ∈ l ∧ f a < f (pythonMaxBy f a l)) := by
  intro l
  induction l with
  | nil => intro a; left; rfl
  | cons b t ih =>
    intro a
    rw [pythonMaxBy_cons]
    by_cases hab : f a < f b
    · rw [if_pos hab]
      rcases ih b with h | ⟨hm, hlt⟩
      · right
        exact ⟨by rw [h]; exact List.mem_cons_self b t, by rw [h]; exact hab⟩
      · right
        exact ⟨List.mem_cons_of_mem b hm, lt_trans hab hlt⟩
    · rw [if_neg hab]
      rcases ih a with h | ⟨hm, hlt⟩
      · left; exact h
      · right; exact ⟨List.mem_cons_of_mem b hm, hlt⟩

/-- `pythonMaxBy` dominates the seed and every list element. -/
theorem pythonMaxBy_le {α : Type} (f : α → ℚ) :
    ∀ (l : List α) (a : α), f a ≤ f (pythonMaxBy f a l) ∧
      ∀ y ∈ l, f y ≤ f (pythonMaxBy f a l) := by
  intro l
  induction l with
  | nil => intro a; exact ⟨le_refl _, by intro y hy; cases hy⟩
  | cons b t ih =>
    intro a
    rw [pythonMaxBy_cons]
    by_cases hab : f a < f b
    · rw [if_pos hab]
      obtain ⟨g1, g2⟩ := ih b
      refine ⟨le_trans (le_of_lt hab) g1, ?_⟩
      intro y hy
      rcases List.mem_cons.mp hy with rfl | hy2
      · exact g1
      · exact g2 y hy2
    · rw [if_neg hab]
      obtain ⟨g1, g2⟩ := ih a
      refine ⟨g1, ?_⟩
      intro y hy
      rcases List.mem_cons.mp hy with rfl | hy2
      · exact le_trans (le_of_not_lt hab) g1
      · exact g2 y hy2

/-- On a list sorted by `time`, `pythonMaxBy` picks the earliest element
among those attaining the maximal key: any element whose key equals the
chosen key lies no earlier. -/
theorem pythonMaxBy_earliest {α : Type} (f : α → ℚ) (time : α → ℚ) :
    ∀ (l : List α) (a : α),
      List.Pairwise (fun x y => time x ≤ time y) (a :: l) →
      ∀ y ∈ a :: l, f y = f (pythonMaxBy f a l) →
        time (pythonMaxBy f a l) ≤ time y := by
  intro l
  induction l with
  | nil =>
    intro a _ y hy _
    rcases List.mem_singleton.mp hy with rfl
    exact le_refl _
  | cons b t ih =>
    intro a hp y hy hf
    rw [pythonMaxBy_cons] at hf ⊢
    by_cases hab : f a < f b
    · rw [if_pos hab] at hf ⊢
      have hpb : List.Pairwise (fun x y => time x ≤ time y) (b :: t) := hp.of_cons
      rcases List.mem_cons.mp hy with rfl | hy2
      · exfalso
        have hle := (pythonMaxBy_le f t b).1
        exact absurd hf (ne_of_lt (lt_of_lt_of_le hab hle))
      · exact ih b hpb y hy2 hf
    · rw [if_neg hab] at hf ⊢
      have hpa : List.Pairwise (fun x y => time x ≤ time y) (a :: t) :=
        hp.sublist (List.Sublist.cons₂ a (List.sublist_cons_self b t))
      rcases List.mem_cons.mp hy with rfl | hy2
      · exact ih y hpa y (List.mem_cons_self y t) hf
      · rcases List.mem_cons.mp hy2 with rfl | hy3
        · rcases pythonMaxBy_eq_or f t a with hre | ⟨_, hlt⟩
          · rw [hre]
            exact (List.pairwise_cons.mp hp).1 y (List.mem_cons_self y t)
          · exact absurd (hf ▸ hlt) hab
        · exact ih a hpa y (List.mem_cons_of_mem a hy3) hf

/-- Unfolding `pythonMinBy` over a cons cell. -/
theorem pythonMinBy_cons {α : Type} (f : α → ℚ) (a b : α) (t : List α) :
    pythonMinBy f a (b :: t) = pythonMinBy f (if f b < f a then b else a) t := rfl

/-- `pythonMinBy` is below the seed and every list element: applied to
the timestamp key, Python's `min` returns the earliest candidate. -/
theorem pythonMinBy_le {α : Type} (f : α → ℚ) :
    ∀ (l : List α) (a : α), f (pythonMinBy f a l) ≤ f a ∧
      ∀ y ∈ l, f (pythonMinBy f a l) ≤ f y := by
  intro l
  induction l with
  | nil => intro a; exact ⟨le_refl _, by intro y hy; cases hy⟩
  | cons b t ih =>
    intro a
    rw [pythonMinBy_cons]
    by_cases hba : f b < f a
    · rw [if_pos hba]
      obtain ⟨g1, g2⟩ := ih b
      refine ⟨le_trans g1 (le_of_lt hba), ?_⟩
      intro y hy
      rcases List.mem_cons.mp hy with rfl | hy2
      · exact g1
      · exact g2 y hy2
    · rw [if_neg hba]
      obtain ⟨g1, g2⟩ := ih a
      refine ⟨g1, ?_⟩
      intro y hy
      rcases List.mem_cons.mp hy with rfl | hy2
      · exact le_trans g1 (le_of_not_lt hba)
      · exact g2 y hy2

/-- The greedy clustering of a time-sorted match list yields clusters
whose start times are again sorted, each bounded below by the current
cluster's start. -/
theorem buildClustersAux_pairwise (w : ℚ) :
    ∀ (ms : List KwMatch) (cur : Cluster),
      List.Pairwise (fun x y => x.timestamp ≤ y.timestamp) (cur.1 :: ms) →
      List.Pairwise (fun c d => clusterTime c ≤ clusterTime d)
        (buildClustersAux w cur ms) ∧
      ∀ c ∈ buildClustersAux w cur ms, cur.1.timestamp ≤ clusterTime c := by
  intro ms
  induction ms with
  | nil =>
    intro cur _
    refine ⟨List.pairwise_singleton _ _, ?_⟩
    intro c hc
    rcases List.mem_singleton.mp hc with rfl
    exact le_refl _
  | cons m ms2 ih =>
    intro cur hp
    unfold buildClustersAux
    by_cases hw : m.timestamp - cur.1.timestamp ≤ w
    · rw [if_pos hw]
      have hp2 : List.Pairwise (fun x y => x.timestamp ≤ y.timestamp) (cur.1 :: ms2) :=
        hp.sublist (List.Sublist.cons₂ cur.1 (List.sublist_cons_self m ms2))
      exact ih (cur.1, cur.2 ++ [m]) hp2
    · rw [if_neg hw]
      have hpm : List.Pairwise (fun x y => x.timestamp ≤ y.timestamp) (m :: ms2) :=
        hp.of_cons
      obtain ⟨ihp, ihlb⟩ := ih (m, []) hpm
      have hcm : cur.1.timestamp ≤ m.timestamp :=
        (List.pairwise_cons.mp hp).1 m (List.mem_cons_self m ms2)
      constructor
      · refine List.pairwise_cons.mpr ⟨?_, ihp⟩
        intro c hc
        exact le_trans hcm (ihlb c hc)
      · intro c hc
        rcases List.mem_cons.mp hc with rfl | hc2
        · exact le_refl _
        · exact le_trans hcm (ihlb c hc2)

/-- An element of `insertByTime m l` is `m` or an element of `l`. -/
theorem insertByTime_mem (m : KwMatch) :
    ∀ (l : List KwMatch) (y : KwMatch), y ∈ insertByTime m l → y = m ∨ y ∈ l := by
  intro l
  induction l with
  | nil =>
    intro y hy
    rcases List.mem_singleton.mp hy with rfl
    left; rfl
  | cons x xs ih =>
    intro y hy
    unfold insertByTime at hy
    by_cases hx : x.timestamp < m.timestamp
    · rw [if_pos hx] at hy
      rcases List.mem_cons.mp hy with rfl | hy2
      · right; exact List.mem_cons_self y xs
      · rcases ih y hy2 with h | h
        · left; exact h
        · right; exact List.mem_cons_of_mem x h
    · rw [if_neg hx] at hy
      rcases List.mem_cons.mp hy with rfl | hy2
      · left; rfl
      · right; exact hy2

/-- Inserting into a time-sorted list keeps it sorted. -/
theorem insertByTime_pairwise (m : KwMatch) :
    ∀ (l : List KwMatch),
      List.Pairwise (fun x y => x.timestamp ≤ y.timestamp) l →
      List.Pairwise (fun x y => x.timestamp ≤ y.timestamp) (insertByTime m l) := by
  intro l
  induction l with
  | nil => intro _; exact List.pairwise_singleton _ _
  | cons x xs ih =>
    intro hp
    unfold insertByTime
    by_cases hx : x.timestamp < m.timestamp
    · rw [if_pos hx]
      refine List.pairwise_cons.mpr ⟨?_, ih hp.of_cons⟩
      intro y hy
      rcases insertByTime_mem m xs y hy with rfl | hy2
      · exact le_of_lt hx
      · exact (List.pairwise_cons.mp hp).1 y hy2
    · rw [if_neg hx]
      refine List.pairwise_cons.mpr ⟨?_, hp⟩
      intro y hy
      rcases List.mem_cons.mp hy with rfl | hy2
      · exact le_of_not_lt hx
      · exact le_trans (le_of_not_lt hx) ((List.pairwise_cons.mp hp).1 y hy2)

/-- The sorted match list of the refinement is time-sorted. -/
theorem sortByTime_pairwise (l : List KwMatch) :
    List.Pairwise (fun x y => x.timestamp ≤ y.timestamp) (sortByTime l) := by
  unfold sortByTime
  induction l with
  | nil => exact List.Pairwise.nil
  | cons x xs ih => exact insertByTime_pairwise x _ ih

/-- C9: timestamp refinement is deterministic — equal approximate
timestamps, keywords, transcripts and windows give equal results — and
every tie-break of the algorithm selects the earliest candidate: the
clusters built from the (always time-sorted) match list are time-sorted;
the strong-cluster choice (head of the filtered list) is no later than
any strong cluster; the best-good-cluster choice (`pythonMaxBy`, Python's
first-maximum `max`) attains the maximal score and is no later than any
good cluster with that score; and the numeric fallback (`pythonMinBy`) is
no later than any numeric match. -/
theorem C9_deterministic_refinement
    (llm llm2 : ℚ) (kw kw2 : List String) (td td2 : Transcript) (w w2 : ℚ)
    (m : KwMatch) (ms : List KwMatch)
    (h1 : llm = llm2) (h2 : kw = kw2) (h3 : td = td2) (h4 : w = w2)
    (hsort : List.Pairwise (fun x y => x.timestamp ≤ y.timestamp) (m :: ms)) :
    refineTimestampWithWords llm kw td w = refineTimestampWithWords llm2 kw2 td2 w2 ∧
    List.Pairwise (fun c d => clusterTime c ≤ clusterTime d)
      (buildClustersAux 15 (m, []) ms) ∧
    (∀ q qs,
      ((buildClustersAux 15 (m, []) ms).map (fun c => (c, clusterScore c))).filter
          (fun p => 3 ≤ p.2) = q :: qs →
      ∀ p ∈ q :: qs, clusterTime q.1 ≤ clusterTime p.1) ∧
    (∀ g gs,
      ((buildClustersAux 15 (m, []) ms).map (fun c => (c, clusterScore c))).filter
          (fun p => 2 ≤ p.2) = g :: gs →
      (∀ p ∈ g :: gs, p.2 ≤ (pythonMaxBy (fun q => q.2) g gs).2) ∧
      (∀ p ∈ g :: gs, p.2 = (pythonMaxBy (fun q => q.2) g gs).2 →
        clusterTime (pythonMaxBy (fun q => q.2) g gs).1 ≤ clusterTime p.1)) ∧
    (∀ n ns, (m :: ms).filter (fun x => x.isNumber) = n :: ns →
      ∀ p ∈ n :: ns, (pythonMinBy (fun x => x.timestamp) n ns).timestamp ≤ p.timestamp) ∧
    List.Pairwise (fun x y => x.timestamp ≤ y.timestamp)
      (sortByTime (collectMatches kw td)) := by
  have hclusters := buildClustersAux_pairwise 15 ms (m, []) hsort
  have hscored : List.Pairwise (fun p q => clusterTime p.1 ≤ clusterTime q.1)
      ((buildClustersAux 15 (m, []) ms).map (fun c => (c, clusterScore c))) := by
    rw [List.pairwise_map]
    exact hclusters.1
  refine ⟨by rw [h1, h2, h3, h4], hclusters.1, ?_, ?_, ?_, sortByTime_pairwise _⟩
  · intro q qs hfil p hp
    have hpf := hscored.filter (fun p => decide (3 ≤ p.2))
    rw [hfil] at hpf
    rcases List.mem_cons.mp hp with rfl | hp2
    · exact le_refl _
    · exact (List.pairwise_cons.mp hpf).1 p hp2
  · intro g gs hfil
    have hpf := hscored.filter (fun p => decide (2 ≤ p.2))
    rw [hfil] at hpf
    obtain ⟨b1, b2⟩ := pythonMaxBy_le (fun q => q.2) gs g
    refine ⟨?_, ?_⟩
    · intro p hp
      rcases List.mem_cons.mp hp with rfl | hp2
      · exact b1
      · exact b2 p hp2
    · intro p hp hpe
      exact pythonMaxBy_earliest (fun q => q.2) (fun p => clusterTime p.1) gs g hpf p hp hpe
  · intro n ns _ p hp
    obtain ⟨b1, b2⟩ := pythonMinBy_le (fun x => x.timestamp) ns n
    rcases List.mem_cons.mp hp with rfl | hp2
    · exact b1
    · exact b2 p hp2

/-- C9 witness: the theorem applied at a concrete one-match input. -/
theorem C9_deterministic_refinement_witness :
    refineTimestampWithWords 5 ["alpha"] ⟨[]⟩ 15 =
      refineTimestampWithWords 5 ["alpha"] ⟨[]⟩ 15 :=
  (C9_deterministic_refinement 5 5 ["alpha"] ["alpha"] ⟨[]⟩ ⟨[]⟩ 15 15 mW []
    rfl rfl rfl rfl (List.pairwise_singleton _ _)).1

end MarketHawk
